import Mathlib

/-!
Shallow embedding of the Bingo Pachinko core
(src/src/BingoPachinkoGame.tsx): the peg field generator, the number
oracle, the per-frame physics step with end-of-drop cleanup, and the
release and positioning commands.  JavaScript numbers are modelled as
exact rationals; the generator additionally tracks NaN, because a 0/0
division occurs there whenever the grid has a single row.  Ball
coordinates are real numbers, since the bounce resolution takes a
square root.  Every Math.random() draw is passed in explicitly as a
rational parameter or stream.
-/

namespace BingoPachinko

/-- JavaScript number as the peg generator sees it: some q is an
ordinary (exact) value, none is NaN.  NaN propagates through
arithmetic and through Math.min and Math.max, which matters in
generatePegs when rows = 1. -/
abbrev JSNum := Option ℚ

def jadd : JSNum → JSNum → JSNum
  | some a, some b => some (a + b)
  | _, _ => none

def jmul : JSNum → JSNum → JSNum
  | some a, some b => some (a * b)
  | _, _ => none

/-- JavaScript division for the generator.  The sole zero-denominator
case generatePegs can reach is 0/0 (row index 0 over rows - 1 = 0),
which is NaN. -/
def jdiv : JSNum → JSNum → JSNum
  | some a, some b => if b = 0 then none else some (a / b)
  | _, _ => none

/-- Math.min: NaN when either argument is NaN. -/
def jmin : JSNum → JSNum → JSNum
  | some a, some b => some (min a b)
  | _, _ => none

/-- Math.max: NaN when either argument is NaN. -/
def jmax : JSNum → JSNum → JSNum
  | some a, some b => some (max a b)
  | _, _ => none

/-- clamp from the source (line 65), on JS numbers:
clamp(v, a, b) = Math.max(a, Math.min(b, v)). -/
def jclamp (v a b : JSNum) : JSNum := jmax a (jmin b v)

/-- Peg as produced by generatePegs.  The string id peg-idx is
modelled by the numeric index idx; coordinates are JS numbers because
the y coordinate is NaN whenever the generator computes 0/0. -/
structure JPeg where
  id : ℕ
  x : JSNum
  y : JSNum
  removed : Bool
  hit : Bool
  num : Option ℕ
deriving DecidableEq, Repr

/-- One peg of generatePegs (source lines 101-125): the grid cell of
peg index idx (row idx / 6, column idx % 6), staggered on odd rows,
jittered by the two random draws j1 and j2, and clamped into the inset
rectangle. -/
def mkPeg (count idx : ℕ) (j1 j2 : ℚ) : JPeg :=
  let cols : ℕ := 6
  let rows : ℕ := (count + cols - 1) / cols
  let r : ℕ := idx / cols
  let c : ℕ := idx % cols
  let left : ℚ := 0.12
  let right : ℚ := 0.88
  let top : ℚ := 0.15
  let bottom : ℚ := 0.90
  let gx : JSNum :=
    jadd (some left) (jmul (jdiv (some (c : ℚ)) (some ((cols : ℚ) - 1))) (some (right - left)))
  let gy : JSNum :=
    jadd (some top) (jmul (jdiv (some (r : ℚ)) (some ((rows : ℚ) - 1))) (some (bottom - top)))
  let stagger : ℚ := ((r % 2 : ℕ) : ℚ) * (right - left) * 0.08
  let jitterX : ℚ := (j1 - 0.5) * 0.03
  let jitterY : ℚ := (j2 - 0.5) * 0.03
  { id := idx
    x := jclamp (jadd (jadd gx (some stagger)) (some jitterX)) (some 0.12) (some 0.88)
    y := jclamp (jadd gy (some jitterY)) (some 0.15) (some 0.90)
    removed := false
    hit := false
    num := none }

/-- generatePegs (source lines 88-129).  The stream rng models the
successive Math.random() calls: peg idx draws rng (2*idx) for its x
jitter and rng (2*idx+1) for its y jitter.  The nested row and column
loop with its early break pushes pegs for exactly the indices
0 to count-1, at row idx / 6 and column idx % 6. -/
def generatePegs (count : ℕ) (rng : ℕ → ℚ) : List JPeg :=
  (List.range count).map fun idx => mkPeg count idx (rng (2 * idx)) (rng (2 * idx + 1))

/-- The unmarked card numbers, pool filtered by the marked set
(source line 135). -/
def unmarkedOf (pool : List ℕ) (marked : Finset ℕ) : List ℕ :=
  pool.filter fun n => decide (n ∉ marked)

/-- pickHitNumber (source lines 131-141).  roll and r are the two
Math.random() draws of one call: roll selects the branch, r then
selects either the index into unmarked or the fallback value. -/
def pickHitNumber (pool : List ℕ) (marked : Finset ℕ) (roll r : ℚ) : ℕ :=
  let unmarked := unmarkedOf pool marked
  if 0 < unmarked.length ∧ roll < 0.75 then
    unmarked.getD (⌊r * (unmarked.length : ℚ)⌋).toNat 0
  else
    (⌊r * 75⌋).toNat + 1

/-- markNumber (source lines 224-232): numbers not in the card pool
are ignored; otherwise the number is added to the marked set (adding
an already present number leaves the set as it is). -/
def markNumber (pool : List ℕ) (marked : Finset ℕ) (n : ℕ) : Finset ℕ :=
  if n ∈ pool then insert n marked else marked

/-- Peg as the physics loop and the cleanup see it.  Generated peg
coordinates are exact rationals for every in-game board (count = 30),
so they are carried as rationals here; only the ball is real-valued. -/
structure Peg where
  id : ℕ
  x : ℚ
  y : ℚ
  removed : Bool
  hit : Bool
  num : Option ℕ
deriving DecidableEq, Repr

/-- Ball state (type PBall of the source). -/
structure PBall where
  x : ℝ
  y : ℝ
  vx : ℝ
  vy : ℝ
  dropping : Bool

/-- Kinematic data of the ball threaded through one physics frame. -/
structure Kin where
  x : ℝ
  y : ℝ
  vx : ℝ
  vy : ℝ

/-- The mutable state of one game instance that the claims are about:
the ball, the peg list, the per-drop touched set (hitPegIdsRef), the
card pool, the marked set and the remaining ball count. -/
structure GameState where
  ball : PBall
  pegs : List Peg
  hitPegIds : Finset ℕ
  pool : List ℕ
  marked : Finset ℕ
  ballsLeft : ℕ

/-- clamp from the source (line 65) on the real-valued ball data. -/
noncomputable def clamp (v a b : ℝ) : ℝ := max a (min b v)

/-- Frame-rate-independent damping factor damp to the power dt*60
(source lines 284-287). -/
noncomputable def dampFactor (dt : ℝ) : ℝ := (0.999 : ℝ) ^ (dt * 60)

/-- Gravity plus damping integration of one frame (source lines
283-290). -/
noncomputable def integrate (dt : ℝ) (b : PBall) : Kin :=
  let vx := b.vx * dampFactor dt
  let vy := (b.vy + 1.55 * dt) * dampFactor dt
  ⟨b.x + vx * dt, b.y + vy * dt, vx, vy⟩

open Classical in
/-- Wall collisions (source lines 292-305): clamp x at both side
walls reflecting vx with restitution 0.85, clamp y at the ceiling
reflecting vy with restitution 0.35; the bottom stays open. -/
noncomputable def wallResolve (k : Kin) : Kin :=
  let x1 := if k.x < 0.03 then (0.03 : ℝ) else k.x
  let vx1 := if k.x < 0.03 then k.vx * (-0.85) else k.vx
  let x2 := if 1 - 0.03 < x1 then (1 - 0.03 : ℝ) else x1
  let vx2 := if 1 - 0.03 < x1 then vx1 * (-0.85) else vx1
  let y1 := if k.y < 0.03 then (0.03 : ℝ) else k.y
  let vy1 := if k.y < 0.03 then k.vy * (-0.35) else k.vy
  ⟨x2, y1, vx2, vy1⟩

/-- Squared distance from the ball centre to a peg (source lines
318-320). -/
noncomputable def dist2 (x y : ℝ) (p : Peg) : ℝ :=
  (x - (p.x : ℝ)) * (x - (p.x : ℝ)) + (y - (p.y : ℝ)) * (y - (p.y : ℝ))

/-- Squared contact distance (rBall + rPeg) squared, source line
309. -/
noncomputable def rr : ℝ := (0.03 + 0.018) * (0.03 + 0.018)

open Classical in
/-- The single closest non-removed peg by squared distance (source
lines 311-336): iterate in order, keep a strictly closer peg,
starting from bestDist = Infinity (modelled by none). -/
noncomputable def closestPeg (x y : ℝ) (pegs : List Peg) : Option Peg :=
  pegs.foldl
    (fun acc p =>
      if p.removed then acc
      else
        match acc with
        | none => some p
        | some q => if dist2 x y p < dist2 x y q then some p else acc)
    none

open Classical in
/-- Ids of the non-removed pegs overlapping the ball this frame
(source lines 315-329); the frame adds them to the per-drop touched
set. -/
noncomputable def touchedIds (x y : ℝ) (pegs : List Peg) : List ℕ :=
  (pegs.filter fun p => decide (p.removed = false ∧ dist2 x y p ≤ rr)).map Peg.id

open Classical in
/-- The pegs receiving their first contact this frame, in iteration
order (source lines 323-329). -/
noncomputable def newlyHit (x y : ℝ) (pegs : List Peg) : List Peg :=
  pegs.filter fun p => decide (p.removed = false ∧ dist2 x y p ≤ rr ∧ p.hit = false)

/-- Number assignment for a list of newly hit pegs: the k-th peg of
the list consumes the random draws rng (2*k) and rng (2*k+1) for its
pickHitNumber call, matching the call order of the source. -/
def assignNums (pool : List ℕ) (marked : Finset ℕ) (rng : ℕ → ℚ) :
    ℕ → List Peg → List (ℕ × ℕ)
  | _, [] => []
  | k, p :: ps =>
    (p.id, pickHitNumber pool marked (rng (2 * k)) (rng (2 * k + 1))) ::
      assignNums pool marked rng (k + 1) ps

open Classical in
/-- The id-to-number updates of one frame (pegUpdates, source lines
313-329). -/
noncomputable def pegUpdates (pool : List ℕ) (marked : Finset ℕ) (rng : ℕ → ℚ)
    (x y : ℝ) (pegs : List Peg) : List (ℕ × ℕ) :=
  assignNums pool marked rng 0 (newlyHit x y pegs)

/-- Lookup in the update map of one frame (source lines 340-346); the
JS Map keeps, for a given id, the last entry written. -/
def lookupLast (us : List (ℕ × ℕ)) (i : ℕ) : Option ℕ :=
  us.foldl (fun acc u => if u.1 = i then some u.2 else acc) none

/-- Application of the frame updates to the peg list (setPegs call,
source lines 339-347): a peg whose id is in the update map becomes
hit with the assigned number, every other peg is untouched. -/
def applyUpdates (us : List (ℕ × ℕ)) (pegs : List Peg) : List Peg :=
  pegs.map fun p =>
    match lookupLast us p.id with
    | some n => { p with hit := true, num := some n }
    | none => p

open Classical in
/-- Bounce against the single closest peg (source lines 349-368),
with the JS idiom sqrt(d2) or-else 1 modelled by the zero test. -/
noncomputable def bounceResolve (pegs : List Peg) (k : Kin) : Kin :=
  match closestPeg k.x k.y pegs with
  | none => k
  | some p =>
    let dx := k.x - (p.x : ℝ)
    let dy := k.y - (p.y : ℝ)
    let d0 := Real.sqrt (dx * dx + dy * dy)
    let dist := if d0 = 0 then 1 else d0
    if dist < 0.03 + 0.018 then
      let nx := dx / dist
      let ny := dy / dist
      let vdot := k.vx * nx + k.vy * ny
      ⟨clamp (k.x + nx * ((0.03 + 0.018) - dist) * 0.8) 0.03 0.97,
       clamp (k.y + ny * ((0.03 + 0.018) - dist) * 0.8) 0.03 1.1,
       (k.vx - 2 * vdot * nx) * 0.88,
       (k.vy - 2 * vdot * ny) * 0.88⟩
    else k

/-- End-of-drop cleanup of the peg list (source lines 268-273): map
over the pegs in order, skipping removed pegs, removing touched pegs,
and collecting the assigned numbers of the touched pegs in iteration
order (the hitNums pushes). -/
def cleanupPegs (pegs : List Peg) (hitIds : Finset ℕ) : List Peg × List ℕ :=
  match pegs with
  | [] => ([], [])
  | p :: ps =>
    let rest := cleanupPegs ps hitIds
    if p.removed then (p :: rest.1, rest.2)
    else if p.id ∈ hitIds then
      match p.num with
      | some n => ({ p with removed := true } :: rest.1, n :: rest.2)
      | none => ({ p with removed := true } :: rest.1, rest.2)
    else (p :: rest.1, rest.2)

open Classical in
/-- One animation frame (the function step, source lines 256-402).
dtRaw is the elapsed wall-clock time in seconds, clamped to 0.02 as in
the source; rng provides the Math.random() draws of this frame in call
order.  Returns the new state together with the numbers the frame
emits to the card collaborator (non-empty only in the cleanup
branch, where the source also feeds them to markNumber). -/
noncomputable def step (dtRaw : ℝ) (rng : ℕ → ℚ) (s : GameState) : GameState × List ℕ :=
  let dt := min 0.02 dtRaw
  let b := s.ball
  if b.dropping = false then
    if 1.05 ≤ b.y ∧ s.hitPegIds ≠ ∅ then
      let res := cleanupPegs s.pegs s.hitPegIds
      ({ s with
          pegs := res.1
          marked := res.2.foldl (markNumber s.pool) s.marked
          hitPegIds := ∅ }, res.2)
    else (s, [])
  else
    let k1 := wallResolve (integrate dt b)
    let ups := pegUpdates s.pool s.marked rng k1.x k1.y s.pegs
    let pegs2 := applyUpdates ups s.pegs
    let hit2 := s.hitPegIds ∪ (touchedIds k1.x k1.y s.pegs).toFinset
    let k2 := bounceResolve s.pegs k1
    if 1.06 < k2.y then
      ({ s with
          ball := { x := k2.x, y := 1.06, vx := 0, vy := 0, dropping := false }
          pegs := pegs2
          hitPegIds := hit2 }, [])
    else
      ({ s with
          ball := { x := k2.x, y := k2.y, vx := k2.vx, vy := k2.vy, dropping := true }
          pegs := pegs2
          hitPegIds := hit2 }, [])

/-- Release command (handleEnd, source lines 454-480), with the touch
gesture bookkeeping (isPositioning) stripped as input plumbing outside
the core.  rand is the Math.random() draw for the initial horizontal
velocity.  While the ball is dropping, or with no balls left, the
command is a silent no-op. -/
noncomputable def handleEnd (rand : ℚ) (s : GameState) : GameState :=
  if s.ball.dropping = true ∨ s.ballsLeft = 0 then s
  else
    { s with
        hitPegIds := ∅
        ballsLeft := s.ballsLeft - 1
        ball := { s.ball with
                    y := 0.06
                    vx := ((rand : ℝ) - 0.5) * 0.18
                    vy := 0.02
                    dropping := true } }

/-- Positioning command (handleStart and handleMove, source lines
414-452): while the ball is not dropping and balls remain, set the
ball x to the normalized pointer position clamped into the start
band. -/
noncomputable def positionBall (nx : ℝ) (s : GameState) : GameState :=
  if s.ball.dropping = true ∨ s.ballsLeft = 0 then s
  else { s with ball := { s.ball with x := clamp nx 0.06 0.94 } }

/-- Board reset (resetBoard, source lines 234-241): replace the pegs
by a freshly generated board (the drawn list is the parameter
newPegs), respawn the ball at the fixed top-centre spawn point and
clear the touched set.  Card state and balls-left are untouched. -/
noncomputable def resetBoard (newPegs : List Peg) (s : GameState) : GameState :=
  { s with
      pegs := newPegs
      ball := { x := 0.5, y := 0.06, vx := 0, vy := 0, dropping := false }
      hitPegIds := ∅ }

/-- One externally triggered transition of the core between board
resets: an animation frame, a release gesture, or a positioning
gesture. -/
inductive Act
  | frame (dtRaw : ℝ) (rng : ℕ → ℚ)
  | release (rand : ℚ)
  | position (nx : ℝ)

noncomputable def applyAct (s : GameState) : Act → GameState
  | .frame dtRaw rng => (step dtRaw rng s).1
  | .release rand => handleEnd rand s
  | .position nx => positionBall nx s

/-- Run a sequence of frames, releases and positionings from a state. -/
noncomputable def run (s : GameState) : List Act → GameState
  | [] => s
  | a :: rest => run (applyAct s a) rest

/-- The bound of the energy non-explosion property on the ball
position. -/
def inBounds (b : PBall) : Prop :=
  0 ≤ b.x ∧ b.x ≤ 1 ∧ 0 ≤ b.y ∧ b.y ≤ 1.1

/-- What cleanup does to one peg, as a function: a live touched peg
becomes removed, every other peg is untouched. -/
def removeTouched (hitIds : Finset ℕ) (p : Peg) : Peg :=
  if p.removed = false ∧ p.id ∈ hitIds then { p with removed := true } else p

/-- Bool test for a live touched peg. -/
def isTouchedLive (hitIds : Finset ℕ) (p : Peg) : Bool :=
  decide (p.removed = false ∧ p.id ∈ hitIds)

lemma cleanupPegs_eq (pegs : List Peg) (h : Finset ℕ) :
    cleanupPegs pegs h =
      (pegs.map (removeTouched h),
       (pegs.filter (isTouchedLive h)).filterMap Peg.num) := by
  induction pegs with
  | nil => rfl
  | cons p ps ih =>
    by_cases hr : p.removed = true
    · simp [cleanupPegs, ih, hr, removeTouched, isTouchedLive, List.filter_cons]
    · have hr' : p.removed = false := by simpa using hr
      by_cases hid : p.id ∈ h
      · cases hn : p.num with
        | none =>
          simp [cleanupPegs, ih, hr', hid, hn, removeTouched, isTouchedLive,
            List.filter_cons]
        | some n =>
          simp [cleanupPegs, ih, hr', hid, hn, removeTouched, isTouchedLive,
            List.filter_cons]
      · simp [cleanupPegs, ih, hr', hid, removeTouched, isTouchedLive, List.filter_cons]

lemma removeTouched_idem (h : Finset ℕ) (p : Peg) :
    removeTouched h (removeTouched h p) = removeTouched h p := by
  unfold removeTouched
  by_cases h1 : p.removed = false ∧ p.id ∈ h
  · simp [h1]
  · simp [h1]

lemma removeTouched_not_live (h : Finset ℕ) (p : Peg) :
    isTouchedLive h (removeTouched h p) = false := by
  unfold removeTouched isTouchedLive
  split_ifs with h1 <;> simp_all

/-- Claim C9.  Cleanup is idempotent: running the cleanup mapping a
second time with the same touched set, on the peg list the first run
produced, changes no peg and emits no number. -/
theorem cleanup_idempotent (pegs : List Peg) (hitIds : Finset ℕ) :
    cleanupPegs (cleanupPegs pegs hitIds).1 hitIds = ((cleanupPegs pegs hitIds).1, []) := by
  simp only [cleanupPegs_eq, List.map_map]
  refine Prod.ext ?_ ?_
  · simp only [List.map_map]
    exact List.map_congr_left fun p _ => removeTouched_idem hitIds p
  · have hnil : (pegs.map (removeTouched hitIds)).filter (isTouchedLive hitIds) = [] := by
      rw [List.filter_eq_nil_iff]
      intro q hq
      rcases List.mem_map.mp hq with ⟨p, _, rfl⟩
      simp [removeTouched_not_live]
    simp [hnil]

lemma markNumber_keeps_subset (pool : List ℕ) (marked : Finset ℕ)
    (h : ∀ n ∈ marked, n ∈ pool) (m : ℕ) :
    ∀ n ∈ markNumber pool marked m, n ∈ pool := by
  intro n hn
  unfold markNumber at hn
  split_ifs at hn with hm
  · rcases Finset.mem_insert.mp hn with rfl | hn
    · exact hm
    · exact h n hn
  · exact h n hn

lemma foldl_markNumber_keeps_subset (pool : List ℕ) (l : List ℕ) :
    ∀ marked : Finset ℕ, (∀ n ∈ marked, n ∈ pool) →
      ∀ n ∈ l.foldl (markNumber pool) marked, n ∈ pool := by
  induction l with
  | nil => intro marked h n hn; exact h n hn
  | cons m rest ih =>
    intro marked h n hn
    exact ih (markNumber pool marked m) (markNumber_keeps_subset pool marked h m) n hn

lemma step_pool (dtRaw : ℝ) (rng : ℕ → ℚ) (s : GameState) :
    (step dtRaw rng s).1.pool = s.pool := by
  simp only [step]
  split_ifs <;> rfl

lemma step_ballsLeft (dtRaw : ℝ) (rng : ℕ → ℚ) (s : GameState) :
    (step dtRaw rng s).1.ballsLeft = s.ballsLeft := by
  simp only [step]
  split_ifs <;> rfl

lemma step_marked_subset (dtRaw : ℝ) (rng : ℕ → ℚ) (s : GameState)
    (h : ∀ n ∈ s.marked, n ∈ s.pool) :
    ∀ n ∈ (step dtRaw rng s).1.marked, n ∈ (step dtRaw rng s).1.pool := by
  rw [step_pool]
  simp only [step]
  split_ifs
  · exact foldl_markNumber_keeps_subset s.pool _ s.marked h
  · exact h
  · exact h
  · exact h

lemma handleEnd_pool (rand : ℚ) (s : GameState) : (handleEnd rand s).pool = s.pool := by
  unfold handleEnd
  split_ifs <;> rfl

lemma handleEnd_marked (rand : ℚ) (s : GameState) : (handleEnd rand s).marked = s.marked := by
  unfold handleEnd
  split_ifs <;> rfl

lemma handleEnd_pegs (rand : ℚ) (s : GameState) : (handleEnd rand s).pegs = s.pegs := by
  unfold handleEnd
  split_ifs <;> rfl

lemma positionBall_pool (nx : ℝ) (s : GameState) : (positionBall nx s).pool = s.pool := by
  unfold positionBall
  split_ifs <;> rfl

lemma positionBall_marked (nx : ℝ) (s : GameState) :
    (positionBall nx s).marked = s.marked := by
  unfold positionBall
  split_ifs <;> rfl

lemma positionBall_pegs (nx : ℝ) (s : GameState) : (positionBall nx s).pegs = s.pegs := by
  unfold positionBall
  split_ifs <;> rfl

lemma applyAct_pool (s : GameState) (a : Act) : (applyAct s a).pool = s.pool := by
  cases a with
  | frame dtRaw rng => exact step_pool dtRaw rng s
  | release rand => exact handleEnd_pool rand s
  | position nx => exact positionBall_pool nx s

lemma applyAct_marked_subset (s : GameState) (a : Act)
    (h : ∀ n ∈ s.marked, n ∈ s.pool) :
    ∀ n ∈ (applyAct s a).marked, n ∈ (applyAct s a).pool := by
  cases a with
  | frame dtRaw rng => exact step_marked_subset dtRaw rng s h
  | release rand =>
    intro n hn
    simp only [applyAct] at hn ⊢
    rw [handleEnd_pool]
    rw [handleEnd_marked] at hn
    exact h n hn
  | position nx =>
    intro n hn
    simp only [applyAct] at hn ⊢
    rw [positionBall_pool]
    rw [positionBall_marked] at hn
    exact h n hn

lemma run_pool (acts : List Act) : ∀ s : GameState, (run s acts).pool = s.pool := by
  induction acts with
  | nil => intro s; rfl
  | cons a rest ih =>
    intro s
    rw [run, ih (applyAct s a), applyAct_pool]

lemma run_marked_subset (acts : List Act) :
    ∀ s : GameState, (∀ n ∈ s.marked, n ∈ s.pool) →
      ∀ n ∈ (run s acts).marked, n ∈ (run s acts).pool := by
  induction acts with
  | nil => intro s h; exact h
  | cons a rest ih =>
    intro s h
    exact ih (applyAct s a) (applyAct_marked_subset s a h)

/-- Claim C10.  Marked numbers always come from the card pool: a
markNumber call with a number outside the pool leaves the marked set
unchanged, the pool itself is never changed by frames, releases or
positionings, and the inclusion of the marked set in the pool is
preserved by every such operation. -/
theorem marked_subset_pool_invariant (s : GameState) (acts : List Act)
    (h : ∀ n ∈ s.marked, n ∈ s.pool) :
    (∀ n : ℕ, n ∉ s.pool → markNumber s.pool s.marked n = s.marked)
    ∧ (run s acts).pool = s.pool
    ∧ (∀ n ∈ (run s acts).marked, n ∈ (run s acts).pool) := by
  refine ⟨fun n hn => ?_, run_pool acts s, run_marked_subset acts s h⟩
  unfold markNumber
  exact if_neg hn

/-- Witness for C10 at a concrete state: card pool 3, 5, marked set 5,
one frame and one release. -/
theorem marked_subset_pool_invariant_witness :
    (∀ n ∈ ({5} : Finset ℕ), n ∈ [3, 5])
    ∧ ((∀ n : ℕ, n ∉ ([3, 5] : List ℕ) →
          markNumber [3, 5] {5} n = {5})
        ∧ (run ⟨⟨0.5, 0.06, 0, 0, false⟩, [], ∅, [3, 5], {5}, 5⟩
            [Act.frame 0 (fun _ => 0), Act.release (1/2)]).pool = [3, 5]
        ∧ (∀ n ∈ (run ⟨⟨0.5, 0.06, 0, 0, false⟩, [], ∅, [3, 5], {5}, 5⟩
            [Act.frame 0 (fun _ => 0), Act.release (1/2)]).marked,
            n ∈ (run ⟨⟨0.5, 0.06, 0, 0, false⟩, [], ∅, [3, 5], {5}, 5⟩
            [Act.frame 0 (fun _ => 0), Act.release (1/2)]).pool)) :=
  ⟨by decide,
   marked_subset_pool_invariant ⟨⟨0.5, 0.06, 0, 0, false⟩, [], ∅, [3, 5], {5}, 5⟩
     [Act.frame 0 (fun _ => 0), Act.release (1/2)] (by decide)⟩

lemma step_ball_not_dropping (dtRaw : ℝ) (rng : ℕ → ℚ) (s : GameState)
    (h : s.ball.dropping = false) :
    (step dtRaw rng s).1.ball = s.ball := by
  simp only [step]
  rw [if_pos h]
  split_ifs <;> rfl

/-- Claim C7.  A release while the ball is dropping or with no balls
left is a silent no-op on the whole state; a release in the idle state
with balls left decrements the ball count by exactly one, clears the
per-drop touched set, gives the ball the fixed downward velocity 0.02
plus the randomized horizontal velocity, sets dropping, and touches
neither pegs, marked set nor pool. -/
theorem handleEnd_guard_and_release (s : GameState) (rand : ℚ) :
    ((s.ball.dropping = true ∨ s.ballsLeft = 0) → handleEnd rand s = s)
    ∧ (s.ball.dropping = false → 0 < s.ballsLeft →
        (handleEnd rand s).ballsLeft = s.ballsLeft - 1
        ∧ s.ballsLeft = (handleEnd rand s).ballsLeft + 1
        ∧ (handleEnd rand s).hitPegIds = ∅
        ∧ (handleEnd rand s).ball =
            ⟨s.ball.x, 0.06, ((rand : ℝ) - 0.5) * 0.18, 0.02, true⟩
        ∧ (handleEnd rand s).pegs = s.pegs
        ∧ (handleEnd rand s).marked = s.marked
        ∧ (handleEnd rand s).pool = s.pool) := by
  constructor
  · intro h
    unfold handleEnd
    rw [if_pos h]
  · intro h1 h2
    have hneg : ¬(s.ball.dropping = true ∨ s.ballsLeft = 0) := by
      rintro (hd | hb)
      · rw [h1] at hd; cases hd
      · omega
    unfold handleEnd
    rw [if_neg hneg]
    refine ⟨rfl, ?_, rfl, rfl, rfl, rfl, rfl⟩
    show s.ballsLeft = s.ballsLeft - 1 + 1
    omega

/-- Witness for C7: a release while dropping is the identity, a
release in the idle state with three balls leaves two. -/
theorem handleEnd_guard_and_release_witness :
    ((⟨⟨0.5, 0.06, 0, 0, true⟩, [], ∅, [], ∅, 3⟩ : GameState).ball.dropping = true
        ∨ (⟨⟨0.5, 0.06, 0, 0, true⟩, [], ∅, [], ∅, 3⟩ : GameState).ballsLeft = 0)
    ∧ handleEnd (1/2) ⟨⟨0.5, 0.06, 0, 0, true⟩, [], ∅, [], ∅, 3⟩
        = ⟨⟨0.5, 0.06, 0, 0, true⟩, [], ∅, [], ∅, 3⟩
    ∧ (handleEnd (1/2) ⟨⟨0.3, 0.06, 0, 0, false⟩, [], ∅, [], ∅, 3⟩).ballsLeft = 2 :=
  ⟨Or.inl rfl,
   (handleEnd_guard_and_release ⟨⟨0.5, 0.06, 0, 0, true⟩, [], ∅, [], ∅, 3⟩ (1/2)).1
     (Or.inl rfl),
   ((handleEnd_guard_and_release ⟨⟨0.3, 0.06, 0, 0, false⟩, [], ∅, [], ∅, 3⟩ (1/2)).2
     rfl (by norm_num)).1⟩

/-- Counterexample to claim C8 as stated: a release from the
positioned x = 0.2 really releases the ball (dropping becomes true)
but keeps x = 0.2, which is not the horizontal centre 0.5. -/
theorem release_keeps_x_cex :
    (handleEnd (1/2) ⟨⟨0.2, 0.06, 0, 0, false⟩, [], ∅, [], ∅, 5⟩).ball.dropping = true
    ∧ (handleEnd (1/2) ⟨⟨0.2, 0.06, 0, 0, false⟩, [], ∅, [], ∅, 5⟩).ball.x = 0.2
    ∧ (0.2 : ℝ) ≠ 0.5 := by
  refine ⟨?_, ?_, by norm_num⟩ <;>
    · unfold handleEnd
      norm_num

/-- Claim C8 as amended.  On a release the ball keeps its positioned
x coordinate; only y is reset to the spawn height 0.06, the velocity
is set to the fixed downward component plus the randomized horizontal
component, and dropping becomes true.  The cleanup frame does not move
the ball at all, and the full top-centre respawn happens on a board
reset. -/
theorem release_spawn_amended (s : GameState) (rand : ℚ)
    (h1 : s.ball.dropping = false) (h2 : 0 < s.ballsLeft) :
    (handleEnd rand s).ball.x = s.ball.x
    ∧ (handleEnd rand s).ball.y = 0.06
    ∧ (handleEnd rand s).ball.vx = ((rand : ℝ) - 0.5) * 0.18
    ∧ (handleEnd rand s).ball.vy = 0.02
    ∧ (handleEnd rand s).ball.dropping = true
    ∧ (∀ (dtRaw : ℝ) (rng : ℕ → ℚ), (step dtRaw rng s).1.ball = s.ball)
    ∧ (∀ newPegs : List Peg, (resetBoard newPegs s).ball = ⟨0.5, 0.06, 0, 0, false⟩) := by
  have hneg : ¬(s.ball.dropping = true ∨ s.ballsLeft = 0) := by
    rintro (hd | hb)
    · rw [h1] at hd; cases hd
    · omega
  refine ⟨?_, ?_, ?_, ?_, ?_, fun dtRaw rng => step_ball_not_dropping dtRaw rng s h1,
      fun newPegs => rfl⟩ <;>
    · unfold handleEnd
      rw [if_neg hneg]

/-- Witness for the amended C8 at a concrete idle state with the ball
positioned at x = 0.3. -/
theorem release_spawn_amended_witness :
    ((⟨⟨0.3, 0.06, 0, 0, false⟩, [], ∅, [], ∅, 5⟩ : GameState).ball.dropping = false)
    ∧ (0 < (⟨⟨0.3, 0.06, 0, 0, false⟩, [], ∅, [], ∅, 5⟩ : GameState).ballsLeft)
    ∧ (handleEnd (1/4) ⟨⟨0.3, 0.06, 0, 0, false⟩, [], ∅, [], ∅, 5⟩).ball.x = 0.3 :=
  ⟨rfl, by norm_num,
   (release_spawn_amended ⟨⟨0.3, 0.06, 0, 0, false⟩, [], ∅, [], ∅, 5⟩ (1/4)
     rfl (by norm_num)).1⟩

lemma floor_lt_len (m : ℕ) (hm : 0 < m) (r : ℚ) (h0 : 0 ≤ r) (h1 : r < 1) :
    (⌊r * (m : ℚ)⌋).toNat < m := by
  have hm' : (0 : ℚ) < m := by exact_mod_cast hm
  have hlt : ⌊r * (m : ℚ)⌋ < (m : ℤ) := by
    rw [Int.floor_lt]
    push_cast
    nlinarith
  omega

lemma floor_unif (m : ℕ) (hm : 0 < m) (r : ℚ) (h0 : 0 ≤ r) (i : ℕ) :
    (⌊r * (m : ℚ)⌋).toNat = i ↔ (i : ℚ) / m ≤ r ∧ r < ((i : ℚ) + 1) / m := by
  have hm' : (0 : ℚ) < m := by exact_mod_cast hm
  have hnn : (0 : ℚ) ≤ r * m := by positivity
  have hge : (0 : ℤ) ≤ ⌊r * (m : ℚ)⌋ := Int.floor_nonneg.mpr hnn
  constructor
  · intro hi
    have hfl : ⌊r * (m : ℚ)⌋ = (i : ℤ) := by omega
    rcases Int.floor_eq_iff.mp hfl with ⟨ha, hb⟩
    constructor
    · rw [div_le_iff hm']
      exact_mod_cast ha
    · rw [lt_div_iff hm']
      push_cast at hb
      linarith
  · rintro ⟨ha, hb⟩
    rw [div_le_iff hm'] at ha
    rw [lt_div_iff hm'] at hb
    have hfl : ⌊r * (m : ℚ)⌋ = (i : ℤ) := by
      apply Int.floor_eq_iff.mpr
      constructor
      · exact_mod_cast ha
      · push_cast
        linarith
    omega

/-- Claim C5.  pickHitNumber computes unmarked as pool minus the
marked set; with unmarked non-empty and roll below 0.75 it returns the
unmarked entry at index floor(r times the length), and that index is
uniform in the sense that its preimage in the unit interval of r is
the interval from i/n to (i+1)/n of width 1/n; otherwise it returns
floor(r times 75) plus one, which ranges over 1 to 75 with the same
interval-preimage uniformity. -/
theorem pickHitNumber_policy (pool : List ℕ) (marked : Finset ℕ) (roll r : ℚ)
    (h0 : 0 ≤ r) (h1 : r < 1) :
    (∀ n : ℕ, n ∈ unmarkedOf pool marked ↔ n ∈ pool ∧ n ∉ marked)
    ∧ (unmarkedOf pool marked ≠ [] → roll < 0.75 →
        ∃ hidx : (⌊r * ((unmarkedOf pool marked).length : ℚ)⌋).toNat <
            (unmarkedOf pool marked).length,
          pickHitNumber pool marked roll r =
            (unmarkedOf pool marked).get
              ⟨(⌊r * ((unmarkedOf pool marked).length : ℚ)⌋).toNat, hidx⟩)
    ∧ ((unmarkedOf pool marked = [] ∨ 0.75 ≤ roll) →
        pickHitNumber pool marked roll r = (⌊r * 75⌋).toNat + 1
        ∧ 1 ≤ (⌊r * 75⌋).toNat + 1 ∧ (⌊r * 75⌋).toNat + 1 ≤ 75)
    ∧ (∀ m : ℕ, 0 < m → ∀ i : ℕ,
        ((⌊r * (m : ℚ)⌋).toNat = i ↔ (i : ℚ) / m ≤ r ∧ r < ((i : ℚ) + 1) / m)) := by
  refine ⟨?_, ?_, ?_, fun m hm i => floor_unif m hm r h0 i⟩
  · intro n
    simp [unmarkedOf, List.mem_filter]
  · intro hne hroll
    have hm : 0 < (unmarkedOf pool marked).length := List.length_pos.mpr hne
    have hidx := floor_lt_len _ hm r h0 h1
    refine ⟨hidx, ?_⟩
    unfold pickHitNumber
    rw [if_pos ⟨hm, hroll⟩]
    exact List.getD_eq_get _ _ hidx
  · intro hcase
    have hneg : ¬(0 < (unmarkedOf pool marked).length ∧ roll < 0.75) := by
      rcases hcase with hnil | hge
      · rw [hnil]
        rintro ⟨hl, _⟩
        simp at hl
      · rintro ⟨_, hlt⟩
        linarith
    unfold pickHitNumber
    rw [if_neg hneg]
    have h75 := floor_lt_len 75 (by norm_num) r h0 h1
    have hcast : ((75 : ℕ) : ℚ) = (75 : ℚ) := by norm_num
    rw [hcast] at h75
    exact ⟨rfl, by omega, by omega⟩

/-- Witness for C5 at a concrete call: pool 3, 5 with nothing marked,
roll one half, r one half. -/
theorem pickHitNumber_policy_witness :
    (0 ≤ (1/2 : ℚ)) ∧ ((1/2 : ℚ) < 1)
    ∧ (∀ n : ℕ, n ∈ unmarkedOf [3, 5] ∅ ↔ n ∈ [3, 5] ∧ n ∉ (∅ : Finset ℕ)) :=
  ⟨by norm_num, by norm_num,
   (pickHitNumber_policy [3, 5] ∅ (1/2) (1/2) (by norm_num) (by norm_num)).1⟩

lemma jadd_some (a b : ℚ) : jadd (some a) (some b) = some (a + b) := rfl

lemma jmul_some (a b : ℚ) : jmul (some a) (some b) = some (a * b) := rfl

lemma jdiv_some (a b : ℚ) (hb : b ≠ 0) : jdiv (some a) (some b) = some (a / b) := by
  simp [jdiv, hb]

lemma jclamp_some (v a b : ℚ) :
    jclamp (some v) (some a) (some b) = some (max a (min b v)) := rfl

lemma mkPeg_bounds (count idx : ℕ) (j1 j2 : ℚ) (hc : 7 ≤ count) :
    (∃ qx : ℚ, (mkPeg count idx j1 j2).x = some qx ∧ 0.12 ≤ qx ∧ qx ≤ 0.88)
    ∧ (∃ qy : ℚ, (mkPeg count idx j1 j2).y = some qy ∧ 0.15 ≤ qy ∧ qy ≤ 0.90) := by
  have hrow : 2 ≤ (count + 6 - 1) / 6 := by omega
  have hrq : (((count + 6 - 1) / 6 : ℕ) : ℚ) - 1 ≠ 0 := by
    have h2 : (2 : ℚ) ≤ (((count + 6 - 1) / 6 : ℕ) : ℚ) := by exact_mod_cast hrow
    intro h
    rw [sub_eq_zero] at h
    rw [h] at h2
    norm_num at h2
  have hcq : (((6 : ℕ) : ℚ) - 1) ≠ 0 := by norm_num
  unfold mkPeg
  constructor
  · simp only [jdiv_some _ _ hcq, jmul_some, jadd_some, jclamp_some]
    exact ⟨_, rfl, le_max_left _ _, max_le (by norm_num) (min_le_left _ _)⟩
  · simp only [jdiv_some _ _ hrq, jmul_some, jadd_some, jclamp_some]
    exact ⟨_, rfl, le_max_left _ _, max_le (by norm_num) (min_le_left _ _)⟩

/-- Counterexample to claim C6 as stated: positive count alone does
not keep the pegs in bounds.  With count = 6 the generator has a
single row, computes 0/0 = NaN for the row offset, and every peg ends
with y = NaN, which lies in no interval. -/
theorem generatePegs_nan_cex :
    ¬ (∀ p ∈ generatePegs 6 (fun _ => 1/2),
        ∃ qy : ℚ, p.y = some qy ∧ 0.15 ≤ qy ∧ qy ≤ 0.90) := by
  intro h
  have hm : mkPeg 6 0 (1/2) (1/2) ∈ generatePegs 6 (fun _ => 1/2) := by
    simp only [generatePegs, List.mem_map]
    exact ⟨0, by simp, rfl⟩
  rcases h _ hm with ⟨qy, hqy, _, _⟩
  have hnone : (mkPeg 6 0 (1/2 : ℚ) (1/2)).y = none := by
    norm_num [mkPeg, jdiv, jadd, jmul, jclamp, jmin, jmax]
  rw [hnone] at hqy
  cases hqy

/-- Claim C6 as amended.  For every positive count and any random
draws, generate returns an ordered sequence of exactly count pegs, all
starting not removed, not hit and with no assigned number; and
whenever the grid has at least two rows, that is count at least 7, all
peg coordinates are ordinary numbers inside the inset rectangle. -/
theorem generatePegs_spec (count : ℕ) (rng : ℕ → ℚ) (hpos : 0 < count) :
    (generatePegs count rng).length = count
    ∧ (∀ p ∈ generatePegs count rng, p.removed = false ∧ p.hit = false ∧ p.num = none)
    ∧ (7 ≤ count → ∀ p ∈ generatePegs count rng,
        (∃ qx : ℚ, p.x = some qx ∧ 0.12 ≤ qx ∧ qx ≤ 0.88)
        ∧ (∃ qy : ℚ, p.y = some qy ∧ 0.15 ≤ qy ∧ qy ≤ 0.90)) := by
  refine ⟨by simp [generatePegs], ?_, ?_⟩
  · intro p hp
    simp only [generatePegs, List.mem_map] at hp
    rcases hp with ⟨idx, _, rfl⟩
    exact ⟨rfl, rfl, rfl⟩
  · intro hc p hp
    simp only [generatePegs, List.mem_map] at hp
    rcases hp with ⟨idx, _, rfl⟩
    exact mkPeg_bounds count idx _ _ hc

/-- Witness for the amended C6 at count 7 with a constant random
stream. -/
theorem generatePegs_spec_witness :
    (0 < 7) ∧ (generatePegs 7 (fun _ => 1/2)).length = 7 :=
  ⟨by norm_num, (generatePegs_spec 7 (fun _ => 1/2) (by norm_num)).1⟩

/-- Claim C2.  A frame in the cleanup situation (ball not dropping,
settled with y at least 1.05, non-empty touched set) maps the peg list
pointwise: a live touched peg becomes removed, every peg already
removed and every untouched peg is returned unchanged; the emitted
numbers are exactly the assigned numbers of the live touched pegs, in
peg-iteration order, one per peg; and the touched set is cleared. -/
theorem cleanup_marks_touched (dtRaw : ℝ) (rng : ℕ → ℚ) (s : GameState)
    (hdrop : s.ball.dropping = false) (hy : 1.05 ≤ s.ball.y) (hne : s.hitPegIds ≠ ∅) :
    (step dtRaw rng s).1.pegs = s.pegs.map (removeTouched s.hitPegIds)
    ∧ (step dtRaw rng s).2 =
        (s.pegs.filter (isTouchedLive s.hitPegIds)).filterMap Peg.num
    ∧ (step dtRaw rng s).1.hitPegIds = ∅ := by
  simp only [step]
  rw [if_pos hdrop, if_pos ⟨hy, hne⟩]
  simp [cleanupPegs_eq]

/-- Witness for C2: one live touched peg carrying number 7 is removed
and its number emitted. -/
theorem cleanup_marks_touched_witness :
    ((⟨⟨0.5, 1.06, 0, 0, false⟩, [⟨0, 1/2, 1/2, false, true, some 7⟩], {0}, [7], ∅, 4⟩ :
        GameState).ball.dropping = false)
    ∧ (1.05 ≤ (⟨⟨0.5, 1.06, 0, 0, false⟩, [⟨0, 1/2, 1/2, false, true, some 7⟩], {0}, [7],
        ∅, 4⟩ : GameState).ball.y)
    ∧ (({0} : Finset ℕ) ≠ ∅)
    ∧ (step 0 (fun _ => 0)
        ⟨⟨0.5, 1.06, 0, 0, false⟩, [⟨0, 1/2, 1/2, false, true, some 7⟩], {0}, [7], ∅, 4⟩).2 =
        (([⟨0, 1/2, 1/2, false, true, some 7⟩] : List Peg).filter
          (isTouchedLive {0})).filterMap Peg.num :=
  ⟨rfl, by norm_num, by decide,
   (cleanup_marks_touched 0 (fun _ => 0)
     ⟨⟨0.5, 1.06, 0, 0, false⟩, [⟨0, 1/2, 1/2, false, true, some 7⟩], {0}, [7], ∅, 4⟩
     rfl (by norm_num) (by decide)).2.1⟩

lemma le_clamp (v a b : ℝ) : a ≤ clamp v a b := le_max_left a _

lemma clamp_le (v a b : ℝ) (hab : a ≤ b) : clamp v a b ≤ b :=
  max_le hab (min_le_left b v)

lemma wallResolve_bounds (k : Kin) :
    0.03 ≤ (wallResolve k).x ∧ (wallResolve k).x ≤ 0.97 ∧ 0.03 ≤ (wallResolve k).y := by
  refine ⟨?_, ?_, ?_⟩ <;>
    · simp only [wallResolve]
      split_ifs <;> simp only [not_lt] at * <;> linarith

lemma bounceResolve_bounds (pegs : List Peg) (k : Kin)
    (hx1 : 0.03 ≤ k.x) (hx2 : k.x ≤ 0.97) (hy1 : 0.03 ≤ k.y) :
    0.03 ≤ (bounceResolve pegs k).x ∧ (bounceResolve pegs k).x ≤ 0.97
    ∧ 0.03 ≤ (bounceResolve pegs k).y := by
  unfold bounceResolve
  cases hcl : closestPeg k.x k.y pegs with
  | none => exact ⟨hx1, hx2, hy1⟩
  | some p =>
    dsimp only
    split_ifs <;>
      first
        | exact ⟨le_clamp _ _ _, clamp_le _ _ _ (by norm_num), le_clamp _ _ _⟩
        | exact ⟨hx1, hx2, hy1⟩

lemma step_inBounds (dtRaw : ℝ) (rng : ℕ → ℚ) (s : GameState)
    (h : inBounds s.ball) : inBounds (step dtRaw rng s).1.ball := by
  by_cases hd : s.ball.dropping = false
  · rw [step_ball_not_dropping dtRaw rng s hd]
    exact h
  · obtain ⟨w1, w2, w3⟩ := wallResolve_bounds (integrate (min 0.02 dtRaw) s.ball)
    obtain ⟨b1, b2, b3⟩ :=
      bounceResolve_bounds s.pegs (wallResolve (integrate (min 0.02 dtRaw) s.ball)) w1 w2 w3
    simp only [step]
    rw [if_neg hd]
    split_ifs with hdrain
    · exact ⟨by linarith, by linarith, by norm_num, by norm_num⟩
    · simp only [not_lt] at hdrain
      exact ⟨by linarith, by linarith, by linarith, by linarith⟩

lemma positionBall_dropping (nx : ℝ) (s : GameState) :
    (positionBall nx s).ball.dropping = s.ball.dropping := by
  unfold positionBall
  split_ifs <;> rfl

lemma applyAct_inBounds (s : GameState) (a : Act) (h : inBounds s.ball) :
    inBounds (applyAct s a).ball := by
  cases a with
  | frame dtRaw rng => exact step_inBounds dtRaw rng s h
  | release rand =>
    simp only [applyAct]
    unfold handleEnd
    split_ifs with hg
    · exact h
    · exact ⟨h.1, h.2.1, by norm_num, by norm_num⟩
  | position nx =>
    simp only [applyAct]
    unfold positionBall
    split_ifs with hg
    · exact h
    · refine ⟨?_, ?_, h.2.2.1, h.2.2.2⟩
      · exact le_trans (by norm_num) (le_clamp nx 0.06 0.94)
      · exact le_trans (clamp_le nx 0.06 0.94 (by norm_num)) (by norm_num)

/-- Claim C3.  From any in-bounds ball state, any sequence of frames
(and releases and positionings) keeps the ball position within
x in 0 to 1 and y in 0 to 1.1. -/
theorem ball_in_bounds_invariant (s : GameState) (acts : List Act)
    (h : inBounds s.ball) : inBounds (run s acts).ball := by
  induction acts generalizing s with
  | nil => exact h
  | cons a rest ih =>
    rw [run]
    exact ih (applyAct s a) (applyAct_inBounds s a h)

/-- Witness for C3: ten thousand frames at dt 0.016 from the dropping
ball spawned at the top centre. -/
theorem ball_in_bounds_invariant_witness :
    inBounds (⟨0.5, 0.06, 0, 0.02, true⟩ : PBall)
    ∧ inBounds (run ⟨⟨0.5, 0.06, 0, 0.02, true⟩, [⟨0, 1/2, 1/2, false, false, none⟩],
        ∅, [7], ∅, 4⟩
        (List.replicate 10000 (Act.frame 0.016 (fun _ => 0)))).ball :=
  ⟨by constructor <;> norm_num,
   ball_in_bounds_invariant
     ⟨⟨0.5, 0.06, 0, 0.02, true⟩, [⟨0, 1/2, 1/2, false, false, none⟩], ∅, [7], ∅, 4⟩
     (List.replicate 10000 (Act.frame 0.016 (fun _ => 0)))
     (by constructor <;> norm_num)⟩

lemma run_not_dropping (acts : List Act) :
    ∀ s : GameState, s.ball.dropping = false →
      (∀ rand : ℚ, Act.release rand ∉ acts) →
      (run s acts).ball.dropping = false := by
  induction acts with
  | nil => intro s h _; exact h
  | cons a rest ih =>
    intro s h hno
    rw [run]
    refine ih (applyAct s a) ?_ fun rand hr => hno rand (List.mem_cons_of_mem _ hr)
    cases a with
    | frame dtRaw rng =>
      simp only [applyAct]
      rw [step_ball_not_dropping dtRaw rng s h]
      exact h
    | release rand => exact absurd (List.mem_cons_self _ _) (fun hc => hno rand hc)
    | position nx =>
      simp only [applyAct]
      rw [positionBall_dropping]
      exact h

/-- Claim C4.  In a dropping frame whose resolved position exceeds
y = 1.06 the ball settles: y is pinned to 1.06, both velocity
components are zeroed and dropping becomes false; and from any
non-dropping state, dropping stays false through every sequence of
frames and positionings that contains no release. -/
theorem drain_settles_and_terminal :
    (∀ (dtRaw : ℝ) (rng : ℕ → ℚ) (s : GameState),
        s.ball.dropping = true →
        1.06 < (bounceResolve s.pegs (wallResolve (integrate (min 0.02 dtRaw) s.ball))).y →
        (step dtRaw rng s).1.ball =
          ⟨(bounceResolve s.pegs (wallResolve (integrate (min 0.02 dtRaw) s.ball))).x,
            1.06, 0, 0, false⟩)
    ∧ (∀ s : GameState, s.ball.dropping = false →
        ∀ acts : List Act, (∀ rand : ℚ, Act.release rand ∉ acts) →
          (run s acts).ball.dropping = false) := by
  constructor
  · intro dtRaw rng s hdrop hdrain
    have hnd : ¬(s.ball.dropping = false) := by rw [hdrop]; simp
    simp only [step]
    rw [if_neg hnd, if_pos hdrain]
  · intro s h acts hno
    exact run_not_dropping acts s h hno

/-- Witness for C4: a dropping ball at y = 1.07 over an empty peg
list settles in one zero-dt frame, and a settled state stays
non-dropping through a frame and a positioning. -/
theorem drain_settles_and_terminal_witness :
    ((⟨⟨0.5, 1.07, 0, 0, true⟩, [], ∅, [], ∅, 0⟩ : GameState).ball.dropping = true)
    ∧ 1.06 < (bounceResolve (([] : List Peg))
        (wallResolve (integrate (min 0.02 0) ⟨0.5, 1.07, 0, 0, true⟩))).y
    ∧ (step 0 (fun _ => 0) ⟨⟨0.5, 1.07, 0, 0, true⟩, [], ∅, [], ∅, 0⟩).1.ball =
        ⟨(bounceResolve (([] : List Peg))
            (wallResolve (integrate (min 0.02 0) ⟨0.5, 1.07, 0, 0, true⟩))).x,
          1.06, 0, 0, false⟩
    ∧ (run ⟨⟨0.5, 0.06, 0, 0, false⟩, [], ∅, [], ∅, 2⟩
        [Act.frame 0.016 (fun _ => 0), Act.position 0.3]).ball.dropping = false := by
  have hmin : min (0.02 : ℝ) 0 = 0 := min_eq_right (by norm_num)
  have hdrain : 1.06 < (bounceResolve (([] : List Peg))
      (wallResolve (integrate (min 0.02 0) ⟨0.5, 1.07, 0, 0, true⟩))).y := by
    rw [hmin]
    norm_num [integrate, dampFactor, wallResolve, bounceResolve, closestPeg,
      Real.rpow_zero]
  refine ⟨rfl, hdrain,
    drain_settles_and_terminal.1 0 (fun _ => 0)
      ⟨⟨0.5, 1.07, 0, 0, true⟩, [], ∅, [], ∅, 0⟩ rfl hdrain,
    drain_settles_and_terminal.2 ⟨⟨0.5, 0.06, 0, 0, false⟩, [], ∅, [], ∅, 2⟩ rfl
      [Act.frame 0.016 (fun _ => 0), Act.position 0.3] ?_⟩
  intro rand hr
  simp [List.mem_cons] at hr

lemma lookupLast_mem (us : List (ℕ × ℕ)) (i n : ℕ) :
    lookupLast us i = some n → ∃ u ∈ us, u.1 = i := by
  unfold lookupLast
  suffices h : ∀ acc : Option ℕ,
      us.foldl (fun acc u => if u.1 = i then some u.2 else acc) acc = some n →
      (∃ u ∈ us, u.1 = i) ∨ acc = some n by
    intro hfold
    rcases h none hfold with hex | hnone
    · exact hex
    · cases hnone
  induction us with
  | nil => intro acc h; exact Or.inr h
  | cons u rest ih =>
    intro acc h
    rw [List.foldl_cons] at h
    rcases ih _ h with hex | hacc
    · rcases hex with ⟨v, hv, hvi⟩
      exact Or.inl ⟨v, List.mem_cons_of_mem _ hv, hvi⟩
    · by_cases hui : u.1 = i
      · exact Or.inl ⟨u, List.mem_cons_self _ _, hui⟩
      · rw [if_neg hui] at hacc
        exact Or.inr hacc

lemma assignNums_mem (pool : List ℕ) (marked : Finset ℕ) (rng : ℕ → ℚ)
    (ps : List Peg) :
    ∀ (k i n : ℕ), (i, n) ∈ assignNums pool marked rng k ps → ∃ p ∈ ps, p.id = i := by
  induction ps with
  | nil => intro k i n h; cases h
  | cons p rest ih =>
    intro k i n h
    rw [assignNums] at h
    rcases List.mem_cons.mp h with heq | hmem
    · injection heq with h1 h2
      exact ⟨p, List.mem_cons_self _ _, h1.symm⟩
    · rcases ih (k + 1) i n hmem with ⟨q, hq, hqi⟩
      exact ⟨q, List.mem_cons_of_mem _ hq, hqi⟩

lemma newlyHit_mem (x y : ℝ) (pegs : List Peg) (p : Peg) :
    p ∈ newlyHit x y pegs → p ∈ pegs ∧ p.hit = false := by
  intro h
  unfold newlyHit at h
  rw [List.mem_filter] at h
  exact ⟨h.1, (of_decide_eq_true h.2).2.2⟩

lemma pegUpdates_hit_none (pool : List ℕ) (marked : Finset ℕ) (rng : ℕ → ℚ)
    (x y : ℝ) (pegs : List Peg) (hnd : (pegs.map Peg.id).Nodup)
    (p : Peg) (hp : p ∈ pegs) (hhit : p.hit = true) :
    lookupLast (pegUpdates pool marked rng x y pegs) p.id = none := by
  cases hl : lookupLast (pegUpdates pool marked rng x y pegs) p.id with
  | none => rfl
  | some n =>
    exfalso
    rcases lookupLast_mem _ _ _ hl with ⟨u, hu, hui⟩
    unfold pegUpdates at hu
    rcases assignNums_mem pool marked rng _ 0 u.1 u.2 hu with ⟨q, hq, hqi⟩
    rcases newlyHit_mem x y pegs q hq with ⟨hqmem, hqhit⟩
    have hid : q.id = p.id := by rw [hqi, hui]
    have hqp : q = p := List.inj_on_of_nodup_map hnd hqmem hp hid
    rw [hqp, hhit] at hqhit
    cases hqhit

lemma step_pegs_cases (dtRaw : ℝ) (rng : ℕ → ℚ) (s : GameState) :
    (step dtRaw rng s).1.pegs = s.pegs
    ∨ (step dtRaw rng s).1.pegs = s.pegs.map (removeTouched s.hitPegIds)
    ∨ (step dtRaw rng s).1.pegs =
        applyUpdates
          (pegUpdates s.pool s.marked rng
            (wallResolve (integrate (min 0.02 dtRaw) s.ball)).x
            (wallResolve (integrate (min 0.02 dtRaw) s.ball)).y s.pegs)
          s.pegs := by
  simp only [step]
  split_ifs
  · right; left
    simp [cleanupPegs_eq]
  · left; rfl
  · right; right; rfl
  · right; right; rfl

lemma map_keepsHit (pegs : List Peg) (F : Peg → Peg)
    (hid : ∀ p ∈ pegs, (F p).id = p.id)
    (hk : ∀ p ∈ pegs, p.hit = true → (F p).hit = true ∧ (F p).num = p.num) :
    (pegs.map F).map Peg.id = pegs.map Peg.id
    ∧ ∀ (i : ℕ) (hi : i < pegs.length) (hi' : i < (pegs.map F).length),
        (pegs.get ⟨i, hi⟩).hit = true →
        ((pegs.map F).get ⟨i, hi'⟩).hit = true
        ∧ ((pegs.map F).get ⟨i, hi'⟩).num = (pegs.get ⟨i, hi⟩).num := by
  constructor
  · rw [List.map_map]
    exact List.map_congr_left fun p hp => hid p hp
  · intro i hi hi' hhit
    have hg : (pegs.map F).get ⟨i, hi'⟩ = F (pegs.get ⟨i, hi⟩) := by
      simp [List.get_eq_getElem, List.getElem_map]
    rw [hg]
    exact hk _ (List.get_mem pegs i hi) hhit

lemma applyAct_keepsHit (s : GameState) (a : Act)
    (hnd : (s.pegs.map Peg.id).Nodup) :
    (applyAct s a).pegs.map Peg.id = s.pegs.map Peg.id
    ∧ ∀ (i : ℕ) (hi : i < s.pegs.length) (hi' : i < (applyAct s a).pegs.length),
        (s.pegs.get ⟨i, hi⟩).hit = true →
        ((applyAct s a).pegs.get ⟨i, hi'⟩).hit = true
        ∧ ((applyAct s a).pegs.get ⟨i, hi'⟩).num = (s.pegs.get ⟨i, hi⟩).num := by
  cases a with
  | frame dtRaw rng =>
    simp only [applyAct]
    rcases step_pegs_cases dtRaw rng s with h | h | h
    · rw [h]
      exact ⟨rfl, fun i hi hi' hhit => ⟨hhit, rfl⟩⟩
    · rw [h]
      apply map_keepsHit
      · intro p hp
        unfold removeTouched
        split_ifs <;> rfl
      · intro p hp hhit
        unfold removeTouched
        split_ifs <;> exact ⟨hhit, rfl⟩
    · rw [h]
      apply map_keepsHit
      · intro p hp
        cases hl : lookupLast (pegUpdates s.pool s.marked rng
            (wallResolve (integrate (min 0.02 dtRaw) s.ball)).x
            (wallResolve (integrate (min 0.02 dtRaw) s.ball)).y s.pegs) p.id with
        | none => rfl
        | some n => rfl
      · intro p hp hhit
        have hl := pegUpdates_hit_none s.pool s.marked rng
          (wallResolve (integrate (min 0.02 dtRaw) s.ball)).x
          (wallResolve (integrate (min 0.02 dtRaw) s.ball)).y s.pegs hnd p hp hhit
        rw [hl]
        exact ⟨hhit, rfl⟩
  | release rand =>
    rw [applyAct, handleEnd_pegs]
    exact ⟨rfl, fun i hi hi' hhit => ⟨hhit, rfl⟩⟩
  | position nx =>
    rw [applyAct, positionBall_pegs]
    exact ⟨rfl, fun i hi hi' hhit => ⟨hhit, rfl⟩⟩

/-- Claim C1.  Once a peg is hit and carries its assigned number, no
later frame, cleanup, release or positioning changes that number (or
clears the hit flag), for boards whose peg ids are distinct, as every
generated board has. -/
theorem peg_num_immutable (s : GameState) (acts : List Act)
    (hnd : (s.pegs.map Peg.id).Nodup)
    (i : ℕ) (hi : i < s.pegs.length) (k : ℕ)
    (hhit : (s.pegs.get ⟨i, hi⟩).hit = true)
    (hnum : (s.pegs.get ⟨i, hi⟩).num = some k) :
    ∃ hi' : i < (run s acts).pegs.length,
      ((run s acts).pegs.get ⟨i, hi'⟩).hit = true
      ∧ ((run s acts).pegs.get ⟨i, hi'⟩).num = some k := by
  induction acts generalizing s with
  | nil => exact ⟨hi, hhit, hnum⟩
  | cons a rest ih =>
    obtain ⟨hmap, hpt⟩ := applyAct_keepsHit s a hnd
    have hlen : (applyAct s a).pegs.length = s.pegs.length := by
      have hc := congrArg List.length hmap
      simpa using hc
    have hi2 : i < (applyAct s a).pegs.length := by omega
    have hnd2 : ((applyAct s a).pegs.map Peg.id).Nodup := by
      rw [hmap]; exact hnd
    obtain ⟨hh2, hn2⟩ := hpt i hi hi2 hhit
    rw [run]
    exact ih (applyAct s a) hnd2 hi2 hh2 (by rw [hn2, hnum])

/-- Witness for C1: a single already hit peg carrying number 9 keeps
it through a frame, a release and another frame. -/
theorem peg_num_immutable_witness :
    (([⟨0, 1/2, 1/2, false, true, some 9⟩] : List Peg).map Peg.id).Nodup
    ∧ (([⟨0, 1/2, 1/2, false, true, some 9⟩] : List Peg).get ⟨0, by norm_num⟩).hit = true
    ∧ (([⟨0, 1/2, 1/2, false, true, some 9⟩] : List Peg).get ⟨0, by norm_num⟩).num = some 9
    ∧ ∃ hi' : 0 < (run ⟨⟨0.5, 0.06, 0, 0, false⟩, [⟨0, 1/2, 1/2, false, true, some 9⟩],
        ∅, [9], ∅, 5⟩
        [Act.frame 0.016 (fun _ => 0), Act.release (1/2),
          Act.frame 0.016 (fun _ => 0)]).pegs.length,
        ((run ⟨⟨0.5, 0.06, 0, 0, false⟩, [⟨0, 1/2, 1/2, false, true, some 9⟩], ∅, [9], ∅, 5⟩
          [Act.frame 0.016 (fun _ => 0), Act.release (1/2),
            Act.frame 0.016 (fun _ => 0)]).pegs.get ⟨0, hi'⟩).hit = true
        ∧ ((run ⟨⟨0.5, 0.06, 0, 0, false⟩, [⟨0, 1/2, 1/2, false, true, some 9⟩], ∅, [9],
            ∅, 5⟩
          [Act.frame 0.016 (fun _ => 0), Act.release (1/2),
            Act.frame 0.016 (fun _ => 0)]).pegs.get ⟨0, hi'⟩).num = some 9 :=
  ⟨by simp, rfl, rfl,
   peg_num_immutable
     ⟨⟨0.5, 0.06, 0, 0, false⟩, [⟨0, 1/2, 1/2, false, true, some 9⟩], ∅, [9], ∅, 5⟩
     [Act.frame 0.016 (fun _ => 0), Act.release (1/2), Act.frame 0.016 (fun _ => 0)]
     (by simp) 0 (by norm_num) 9 rfl rfl⟩

end BingoPachinko
